import Mathlib

/-!
# Verification of the gitlab-mirror synchronization core

A shallow embedding, in Lean 4, of the synchronization core of the
`gitlab-mirror` repository (`src/gitlab_mirror/`): URL normalization,
the glob-based filter engine, the reconciliation decision engine, the
staleness policy, the retry/backoff transport loops (as effect traces),
the per-project sync step, the parallel collection phase and the summary
accounting.  Pure Python functions become Lean functions; filesystem and
network interactions are captured by explicit oracle records (what each
probe/attempt would observe) and by explicit effect traces (what each
operation would do to the filesystem/network).

Strings are modelled as `List Char` (`Str` below); Python `re`/`fnmatch`
calls are embedded as executable character-level functions.
-/

namespace GitlabMirror

abbrev Str := List Char

/-! ## URL normalization (`git_operations.py`, `GitOperations._normalize_url`)

`_normalize_url` performs `re.sub(r"://[^@]+@", "://", url)`, then
`rstrip("/")`, then removal of one trailing `".git"`, then `.lower()`.

The `re.sub` scans left to right; at a position it matches iff the text
starts with `"://"` followed by at least one non-`@` character and then a
`@`; the whole match is replaced by `"://"` and scanning resumes after
the consumed `@`.  `afterCred` below returns the suffix after that first
`@` (when the credential run is non-empty), mirroring `[^@]+@`. -/

/-- Suffix after the first `@`, provided at least one non-`@` character
precedes it; continuation part (at least one character already seen). -/
def afterCredCont : Str → Option Str
  | [] => none
  | '@' :: rest => some rest
  | _ :: rest => afterCredCont rest

/-- Suffix after `[^@]+@`, if the input starts with that shape. -/
def afterCred : Str → Option Str
  | [] => none
  | '@' :: _ => none
  | _ :: rest => afterCredCont rest

theorem afterCredCont_length {l r : Str} (h : afterCredCont l = some r) :
    r.length < l.length := by
  induction l with
  | nil => simp [afterCredCont] at h
  | cons c rest ih =>
    by_cases hc : c = '@'
    · subst hc; simp [afterCredCont] at h; subst h; simp
    · rw [show afterCredCont (c :: rest) = afterCredCont rest by
        cases c; simp_all [afterCredCont]] at h
      exact Nat.lt_trans (ih h) (by simp)

theorem afterCred_length {l r : Str} (h : afterCred l = some r) :
    r.length < l.length := by
  cases l with
  | nil => simp [afterCred] at h
  | cons c rest =>
    by_cases hc : c = '@'
    · subst hc; simp [afterCred] at h
    · rw [show afterCred (c :: rest) = afterCredCont rest by
        cases c; simp_all [afterCred]] at h
      exact Nat.lt_trans (afterCredCont_length h) (by simp)

/-- Fuelled credential-stripping scan for `re.sub(r"://[^@]+@", "://", url)`.
Any fuel at least the length of the list yields the scan's value. -/
def stripCredFuel : Nat → Str → Str
  | 0, l => l
  | _ + 1, [] => []
  | fuel + 1, c :: rest =>
    if c = ':' ∧ rest.take 2 = ['/', '/'] then
      match afterCred (rest.drop 2) with
      | some suf => ':' :: '/' :: '/' :: stripCredFuel fuel suf
      | none => c :: stripCredFuel fuel rest
    else c :: stripCredFuel fuel rest

/-- `re.sub(r"://[^@]+@", "://", url)` from `_normalize_url`. -/
def stripCred (l : Str) : Str := stripCredFuel l.length l

/-- `str.rstrip("/")`. -/
def rstripSlash (l : Str) : Str := (l.reverse.dropWhile (· = '/')).reverse

/-- `if normalized.endswith(".git"): normalized = normalized[:-4]`. -/
def dropGitSuffix (l : Str) : Str :=
  if ['.', 'g', 'i', 't'].isSuffixOf l then l.take (l.length - 4) else l

/-- `GitOperations._normalize_url`: strip embedded credentials, strip the
trailing slashes, strip one trailing `.git`, lower-case. -/
def normalize_url (url : Str) : Str :=
  ((dropGitSuffix (rstripSlash (stripCred url))).map Char.toLower)

/-! ## Shell-glob matching (`fnmatch.fnmatch`, POSIX `normcase` = identity)

`sync.py` filters with `fnmatch.fnmatch(path, pattern)`: `*` matches any
sequence (including across `/`), `?` any single character, `[seq]` a
character set (leading `!` negates, a `]` right after `[`/`[!` is a
literal member, `a-b` is a range, an unterminated `[` is literal). -/

/-- Membership of a character in a bracket-set body (ranges `a-b`;
a leading or trailing `-` is literal). -/
def memberOfSet : Str → Char → Bool
  | [], _ => false
  | a :: '-' :: b :: rest, c =>
    (decide (a ≤ c) && decide (c ≤ b)) || memberOfSet rest c
  | a :: rest, c => (a == c) || memberOfSet rest c

/-- Split a bracket body at the first `]`; `none` if unterminated. -/
def splitAtClose : Str → Option (Str × Str)
  | [] => none
  | ']' :: rest => some ([], rest)
  | c :: rest => (splitAtClose rest).map (fun x => (c :: x.1, x.2))

/-- Parse the remainder after `[`: negation flag, set body, rest of the
pattern; `none` when the bracket never closes (then `[` is literal). -/
def extractSet (p : Str) : Option (Bool × Str × Str) :=
  match p with
  | '!' :: ']' :: q => (splitAtClose q).map (fun x => (true, ']' :: x.1, x.2))
  | '!' :: q => (splitAtClose q).map (fun x => (true, x.1, x.2))
  | ']' :: q => (splitAtClose q).map (fun x => (false, ']' :: x.1, x.2))
  | q => (splitAtClose q).map (fun x => (false, x.1, x.2))

/-- Fuelled glob matcher; fuel `|pattern| + |text| + 1` always suffices
(every step consumes at least one pattern or text character). -/
def globMatchFuel : Nat → Str → Str → Bool
  | 0, _, _ => false
  | _ + 1, [], s => s.isEmpty
  | fuel + 1, '*' :: p, s =>
    globMatchFuel fuel p s ||
      (match s with
       | [] => false
       | _ :: s' => globMatchFuel fuel ('*' :: p) s')
  | fuel + 1, '?' :: p, s =>
    (match s with
     | [] => false
     | _ :: s' => globMatchFuel fuel p s')
  | fuel + 1, '[' :: p, s =>
    (match extractSet p with
     | some x =>
       (match s with
        | [] => false
        | c :: s' => (memberOfSet x.2.1 c != x.1) && globMatchFuel fuel x.2.2 s')
     | none =>
       (match s with
        | [] => false
        | c :: s' => (c == '[') && globMatchFuel fuel p s'))
  | fuel + 1, c :: p, s =>
    (match s with
     | [] => false
     | c' :: s' => (c == c') && globMatchFuel fuel p s')

/-- `fnmatch.fnmatch(name, pattern)` on a POSIX platform. -/
def fnmatch (name pattern : Str) : Bool :=
  globMatchFuel (pattern.length + name.length + 1) pattern name

/-! ## Data model (`models.py`) -/

/-- `ProjectStatus` (`models.py`). -/
inductive ProjectStatus
  | TO_CLONE
  | CLONED
  | UPDATED
  | ALREADY_UP_TO_DATE
  | IGNORED
  | EXCLUDED
  | ERROR
deriving DecidableEq, Repr

/-- `GitLabProject` (`models.py`). -/
structure GitLabProject where
  id : Nat
  name : Str
  path : Str
  path_with_namespace : Str
  ssh_url_to_repo : Str
  http_url_to_repo : Str
  web_url : Str
  namespace_id : Nat
  namespace_path : Str
  description : Option Str
deriving DecidableEq, Repr

/-- `Reason`: the distinct reason strings produced by
`GitOperations.check_if_behind_remote` (`git_operations.py`), one
constructor per f-string template. -/
inductive Reason
  | fetch_recent              -- "Fetch récent (…h < …h)"
  | local_modifications       -- "Modifications locales non commitées"
  | detached_head             -- "HEAD détaché, fetch recommandé"
  | already_current           -- "Déjà à jour avec remote"
  | commits_behind_remote (n : Nat)  -- "… commit(s) de retard"
  | scheduled_update          -- "Mise à jour planifiée"
  | check_failed              -- "Vérification impossible, mise à jour par précaution"
deriving DecidableEq, Repr

/-- The messages stored in result tuples / `SyncResult.error_message`,
one constructor per message template of the source.  Raw exception texts
are abstracted by a numeric code. -/
inductive GitMessage
  | exhausted (attempts : Nat) (last : Option Nat)  -- "Échec après N tentatives: …"
  | unexpected (e : Nat)                            -- "Erreur inattendue …"
  | update_reason (r : Reason)                      -- update returns status.reason
  | conflict                                        -- "Dossier existant mais non correspondant"
  | worker_exception (e : Nat)                      -- str(e) at the pool boundary
  | excluded_note                                   -- "Exclu: …"
deriving DecidableEq, Repr

/-- `SyncResult` (`models.py`). -/
structure SyncResult where
  project : GitLabProject
  status : ProjectStatus
  local_path : Str
  error_message : Option GitMessage
deriving DecidableEq, Repr

/-- `SyncSummary` (`models.py`). -/
structure SyncSummary where
  total_groups : Nat
  total_projects : Nat
  cloned : Nat
  updated : Nat
  already_up_to_date : Nat
  ignored : Nat
  excluded : Nat
  errors : Nat
  results : List SyncResult

/-- `SyncSummary.success_rate` (`models.py`): exact rational arithmetic
in place of Python floats (every value the spec commits to is reached
exactly in both).  The subtraction is integer subtraction, as in Python. -/
def SyncSummary.success_rate (s : SyncSummary) : ℚ :=
  let effective_total : ℤ := (s.total_projects : ℤ) - (s.excluded : ℤ)
  if effective_total = 0 then 100
  else ((s.cloned : ℚ) + (s.updated : ℚ) + (s.already_up_to_date : ℚ))
        / (effective_total : ℚ) * 100

/-! ## Configuration (`config.py`, the fields the core reads) -/

inductive CloneMethod | http | ssh
deriving DecidableEq, Repr

structure Config where
  root_dir : Str
  clone_method : CloneMethod
  token : Str
  dry_run : Bool
  update_existing : Bool
  fetch_only : Bool
  smart_update : Bool
  skip_recent_hours : ℚ
  max_retries : Nat
  clone_depth : Nat
  single_branch : Bool
  filter_blobs : Bool
  prune : Bool
  include_patterns : List Str
  exclude_patterns : List Str
  max_workers : Nat

/-! ## Filter engine (`sync.py`, `ProjectSynchronizer.is_project_excluded`) -/

/-- `ProjectSynchronizer.is_project_excluded`: the `for…break/else`
include gate (non-empty include list and no include pattern matches ⇒
excluded), then the exclude scan. -/
def is_project_excluded (cfg : Config) (project : GitLabProject) : Bool :=
  let path := project.path_with_namespace
  if cfg.include_patterns ≠ [] ∧
      ¬ cfg.include_patterns.any (fun pattern => fnmatch path pattern) then
    true
  else
    cfg.exclude_patterns.any (fun pattern => fnmatch path pattern)

/-! ## Local repository inspector (`git_operations.py`)

The filesystem at one project's local path is abstracted by what the
inspector calls would observe there: `pathExists` is `local_path.exists()`
and `repo` is `some meta` iff `git.Repo(local_path)` succeeds, with
`meta.originUrl` the fetch URL of the `origin` remote, when present. -/

structure RepoMeta where
  originUrl : Option Str
deriving DecidableEq, Repr

structure LocalState where
  pathExists : Bool
  repo : Option RepoMeta
deriving DecidableEq, Repr

/-- `GitOperations.is_git_repository`: `git.Repo(path)` succeeds. -/
def is_git_repository (st : LocalState) : Bool := st.repo.isSome

/-- `GitOperations.get_repository_remote_url`: the `origin` URL, or
`none` when there is no such remote or no repository at all. -/
def get_repository_remote_url (st : LocalState) : Option Str :=
  match st.repo with
  | none => none
  | some meta => meta.originUrl

/-- `GitOperations.matches_project`: the repository's normalized origin
URL equals one of the project's normalized http/ssh URLs. -/
def matches_project (st : LocalState) (project : GitLabProject) : Bool :=
  if ¬ is_git_repository st then false
  else
    match get_repository_remote_url st with
    | none => false
    | some remote_url =>
      let project_urls := [normalize_url project.http_url_to_repo,
                           normalize_url project.ssh_url_to_repo]
      normalize_url remote_url ∈ project_urls

/-! ## Reconciliation decision engine
(`sync.py`, `ProjectSynchronizer.determine_project_action`) -/

/-- `ProjectSynchronizer.determine_project_action`: the four-way decision,
in source order. -/
def determine_project_action (st : LocalState) (project : GitLabProject) :
    ProjectStatus :=
  if ¬ st.pathExists then ProjectStatus.TO_CLONE
  else if ¬ is_git_repository st then ProjectStatus.IGNORED
  else if ¬ matches_project st project then ProjectStatus.IGNORED
  else ProjectStatus.ALREADY_UP_TO_DATE

/-! ## Staleness policy (`git_operations.py`, `check_if_behind_remote`)

`hours_since_last_fetch` is `+inf` when no `FETCH_HEAD` exists, else a
finite number of hours; probes that can raise in the Python source are
`Except`-valued in the oracle (`error` = the probe raised). -/

inductive HoursSince
  | inf
  | fin (q : ℚ)
deriving DecidableEq

/-- `hours_ago < threshold` with `hours_ago` possibly `+inf`. -/
def HoursSince.ltQ : HoursSince → ℚ → Prop
  | .inf, _ => False
  | .fin h, t => h < t

instance (hs : HoursSince) (q : ℚ) : Decidable (hs.ltQ q) :=
  match hs with
  | .inf => Decidable.isFalse (fun h => h)
  | .fin h => inferInstanceAs (Decidable (h < q))

/-- `UpdateStatus` (`git_operations.py`). -/
structure UpdateStatus where
  needs_update : Bool
  reason : Reason
  commits_behind : Nat
  last_fetch_hours : HoursSince
deriving DecidableEq

/-- Observations available to one `check_if_behind_remote` evaluation.
`count_step` is the body of `_count_commits_behind` up to its own
`except` handler: `.ok n` means that body computed `n` (the
missing-remote-ref branch is `.ok 0`); `.error e` means it raised. -/
structure RepoOracle where
  openRepo : Except Nat Unit
  hours_ago : HoursSince
  is_dirty : Except Nat Bool
  is_detached : Except Nat Bool
  count_step : Except Nat Nat

/-- `GitOperations._count_commits_behind`: its `except Exception`
handler turns any error of the counting body into `0`. -/
def count_commits_behind (o : RepoOracle) : Nat :=
  match o.count_step with
  | .ok n => n
  | .error _ => 0

/-- The `try` body of `check_if_behind_remote`, before its top-level
`except Exception` handler. -/
def check_body (cfg : Config) (o : RepoOracle) : Except Nat UpdateStatus :=
  match o.openRepo with
  | .error e => .error e
  | .ok _ =>
    let hours_ago := o.hours_ago
    if 0 < cfg.skip_recent_hours ∧ hours_ago.ltQ cfg.skip_recent_hours then
      .ok ⟨false, .fetch_recent, 0, hours_ago⟩
    else
      match o.is_dirty with
      | .error e => .error e
      | .ok true => .ok ⟨false, .local_modifications, 0, hours_ago⟩
      | .ok false =>
        match o.is_detached with
        | .error e => .error e
        | .ok true => .ok ⟨true, .detached_head, 0, hours_ago⟩
        | .ok false =>
          if cfg.smart_update then
            let behind := count_commits_behind o
            if behind = 0 then .ok ⟨false, .already_current, 0, hours_ago⟩
            else .ok ⟨true, .commits_behind_remote behind, behind, hours_ago⟩
          else .ok ⟨true, .scheduled_update, 0, hours_ago⟩

/-- `GitOperations.check_if_behind_remote`: the policy body guarded by
the top-level handler (any escaping error defaults to "update needed";
the dataclass defaults give `commits_behind = 0`, `last_fetch_hours = 0`
there). -/
def check_if_behind_remote (cfg : Config) (o : RepoOracle) : UpdateStatus :=
  match check_body cfg o with
  | .ok status => status
  | .error _ => ⟨true, .check_failed, 0, .fin 0⟩

/-! ## Transport operations (`git_operations.py`)

Clone and update are modelled as functions returning both the source's
return value and the trace of filesystem/network effects they perform,
driven by an oracle giving the outcome of each transport attempt
(`.error e` = the attempt raised `GitCommandError` with text code `e`). -/

inductive Effect
  | mkdir_parent               -- target_path.parent.mkdir(parents=True, exist_ok=True)
  | clone_attempt              -- git.Repo.clone_from(clone_url, target_path, …)
  | rmtree_target              -- shutil.rmtree(target_path) of a failed partial clone
  | sleep (seconds : Nat)      -- time.sleep(delay)
  | fetch_attempt              -- origin.fetch(…)
  | pull_attempt               -- origin.pull(branch, …)
  | create_askpass             -- _create_askpass_script temp file
  | remove_askpass             -- askpass_script.unlink() in the finally block
  | setup_credential_helper    -- _setup_credential_helper after a successful clone
deriving DecidableEq, Repr

/-- Per-call observations driving `_clone_with_retry` (and the outer
`clone_repository` mkdir): `attempt i` is what `git.Repo.clone_from`
does on the i-th try, `target_exists_after i` is `target_path.exists()`
right after that failed try. -/
structure CloneOracle where
  mkdir_ok : Except Nat Unit
  attempt : Nat → Except Nat Unit
  target_exists_after : Nat → Bool

structure CloneOutcome where
  ok : Bool
  error : Option GitMessage
deriving DecidableEq, Repr

/-- The `for attempt in range(max_retries + 1)` loop of
`_clone_with_retry`; `i` is the attempt index, `fuel` the number of
attempts still allowed (`max_retries + 1` at the start). -/
def cloneLoop (cfg : Config) (o : CloneOracle) :
    Nat → Nat → Option Nat → CloneOutcome × List Effect
  | _, 0, last => (⟨false, some (.exhausted (cfg.max_retries + 1) last)⟩, [])
  | i, fuel + 1, _ =>
    match o.attempt i with
    | .ok _ =>
      let fx :=
        if cfg.clone_method = CloneMethod.http ∧ cfg.token ≠ [] then
          [Effect.setup_credential_helper]
        else []
      (⟨true, none⟩, Effect.clone_attempt :: fx)
    | .error e =>
      let cleanup :=
        if o.target_exists_after i then [Effect.rmtree_target] else []
      if fuel = 0 then
        (⟨false, some (.exhausted (cfg.max_retries + 1) (some e))⟩,
          Effect.clone_attempt :: cleanup)
      else
        let rest := cloneLoop cfg o (i + 1) fuel (some e)
        (rest.1, Effect.clone_attempt :: cleanup ++ Effect.sleep (2 ^ i) :: rest.2)

/-- `GitOperations._clone_with_retry`: askpass setup/teardown around the
attempt loop. -/
def clone_with_retry (cfg : Config) (o : CloneOracle) :
    CloneOutcome × List Effect :=
  let pre := if cfg.clone_method = CloneMethod.http ∧ cfg.token ≠ [] then
    [Effect.create_askpass] else []
  let post := if cfg.clone_method = CloneMethod.http ∧ cfg.token ≠ [] then
    [Effect.remove_askpass] else []
  let r := cloneLoop cfg o 0 (cfg.max_retries + 1) none
  (r.1, pre ++ r.2 ++ post)

/-- `GitOperations.get_clone_url`. -/
def get_clone_url (cfg : Config) (project : GitLabProject) : Str :=
  if cfg.clone_method = CloneMethod.ssh then project.ssh_url_to_repo
  else project.http_url_to_repo

/-- `GitOperations.clone_repository`: dry-run short-circuit, parent
mkdir (whose failure is the outer "Erreur inattendue" branch), then the
retry loop. -/
def clone_repository (cfg : Config) (_project : GitLabProject)
    (_target_path : Str) (o : CloneOracle) : CloneOutcome × List Effect :=
  if cfg.dry_run then (⟨true, none⟩, [])
  else
    match o.mkdir_ok with
    | .error e => (⟨false, some (.unexpected e)⟩, [])
    | .ok _ =>
      let r := clone_with_retry cfg o
      (r.1, Effect.mkdir_parent :: r.2)

structure UpdateOutcome where
  ok : Bool
  error : Option GitMessage
  was_updated : Bool
deriving DecidableEq, Repr

/-- Observations driving one `update_repository` call: the staleness
probes and, per retry attempt, the outcome of the fetch/pull
(`head_detached_now` selects pull vs fetch when not fetch-only). -/
structure UpdateOracle where
  inspect : RepoOracle
  head_detached_now : Bool
  attempt : Nat → Except Nat Unit

/-- The attempt loop of `_update_with_retry`. -/
def updateLoop (cfg : Config) (o : UpdateOracle) :
    Nat → Nat → Option Nat → UpdateOutcome × List Effect
  | _, 0, last => (⟨false, some (.exhausted (cfg.max_retries + 1) last), false⟩, [])
  | i, fuel + 1, _ =>
    let op : Effect :=
      if cfg.fetch_only then .fetch_attempt
      else if o.head_detached_now then .fetch_attempt
      else .pull_attempt
    match o.attempt i with
    | .ok _ => (⟨true, none, true⟩, [op])
    | .error e =>
      if fuel = 0 then
        (⟨false, some (.exhausted (cfg.max_retries + 1) (some e)), false⟩, [op])
      else
        let rest := updateLoop cfg o (i + 1) fuel (some e)
        (rest.1, op :: Effect.sleep (2 ^ i) :: rest.2)

/-- `GitOperations._update_with_retry`. -/
def update_with_retry (cfg : Config) (o : UpdateOracle) :
    UpdateOutcome × List Effect :=
  updateLoop cfg o 0 (cfg.max_retries + 1) none

/-- `GitOperations.update_repository`: disabled-updates and dry-run
short-circuits, then the staleness policy, then the retry loop.  (The
lightweight refs fetch that `_count_commits_behind` issues happens
inside the `count_step` observation of the staleness oracle.) -/
def update_repository (cfg : Config) (_path : Str)
    (_project : GitLabProject) (o : UpdateOracle) :
    UpdateOutcome × List Effect :=
  if ¬ cfg.update_existing then (⟨true, none, false⟩, [])
  else if cfg.dry_run then (⟨true, none, false⟩, [])
  else
    let status := check_if_behind_remote cfg o.inspect
    if ¬ status.needs_update then
      (⟨true, some (.update_reason status.reason), false⟩, [])
    else update_with_retry cfg o

/-! ## Per-project synchronization (`sync.py`, `ProjectSynchronizer`) -/

/-- `ProjectSynchronizer.get_local_path`: `root_dir / path_with_namespace`. -/
def get_local_path (cfg : Config) (project : GitLabProject) : Str :=
  cfg.root_dir ++ '/' :: project.path_with_namespace

/-- Everything one worker observes while synchronizing one project. -/
structure ProjectOracles where
  local_state : LocalState
  clone : CloneOracle
  update : UpdateOracle

/-- `ProjectSynchronizer.sync_project`: decision, then clone / update /
ignore, producing the `SyncResult` and the effect trace. -/
def sync_project (cfg : Config) (project : GitLabProject)
    (o : ProjectOracles) : SyncResult × List Effect :=
  let local_path := get_local_path cfg project
  let action := determine_project_action o.local_state project
  if action = ProjectStatus.TO_CLONE then
    let r := clone_repository cfg project local_path o.clone
    (⟨project, if r.1.ok then .CLONED else .ERROR, local_path, r.1.error⟩, r.2)
  else if action = ProjectStatus.ALREADY_UP_TO_DATE then
    if cfg.update_existing then
      let r := update_repository cfg local_path project o.update
      (⟨project,
        if r.1.ok then
          (if r.1.was_updated then .UPDATED else .ALREADY_UP_TO_DATE)
        else .ERROR,
        local_path, r.1.error⟩, r.2)
    else (⟨project, .ALREADY_UP_TO_DATE, local_path, none⟩, [])
  else (⟨project, .IGNORED, local_path, some .conflict⟩, [])

/-- `ProjectSynchronizer._sync_projects_parallel`: every submitted
project is handed to a worker running `sync_project`; results are
appended in completion order (`completion_order`, a permutation of the
submitted list); an exception escaping a worker (`escape p = some e`)
is caught at the `future.result()` boundary and converted into that
project's own `error` result. -/
def sync_projects_parallel (cfg : Config)
    (oracles : GitLabProject → ProjectOracles)
    (escape : GitLabProject → Option Nat)
    (completion_order : List GitLabProject) : List SyncResult :=
  completion_order.map (fun project =>
    match escape project with
    | some e =>
      ⟨project, .ERROR, get_local_path cfg project, some (.worker_exception e)⟩
    | none => (sync_project cfg project (oracles project)).1)

/-- `ProjectSynchronizer._build_summary`. -/
def build_summary (group_identifiers : List Str)
    (results : List SyncResult) : SyncSummary :=
  ⟨group_identifiers.length,
   results.length,
   results.countP (fun r => decide (r.status = ProjectStatus.CLONED)),
   results.countP (fun r => decide (r.status = ProjectStatus.UPDATED)),
   results.countP (fun r => decide (r.status = ProjectStatus.ALREADY_UP_TO_DATE)),
   results.countP (fun r => decide (r.status = ProjectStatus.IGNORED)),
   results.countP (fun r => decide (r.status = ProjectStatus.EXCLUDED)),
   results.countP (fun r => decide (r.status = ProjectStatus.ERROR)),
   results⟩

/-! ## Verified claims -/

/-- C5: `SyncSummary.success_rate` equals
`(cloned + updated + already_up_to_date) / (total_projects − excluded) × 100`,
and equals `100` whenever `total_projects − excluded` is `0`; concretely
the spec's three instances hold (`100`, `90`, `100`), and an `ignored`
result is not subtracted from the denominator (a summary with
`total = 2`, `ignored = 1`, `cloned = 1` rates `50`, not `100`). -/
theorem success_rate_spec :
    (∀ s : SyncSummary,
      ((s.total_projects : ℤ) - (s.excluded : ℤ) = 0 → s.success_rate = 100) ∧
      ((s.total_projects : ℤ) - (s.excluded : ℤ) ≠ 0 →
        s.success_rate =
          ((s.cloned : ℚ) + (s.updated : ℚ) + (s.already_up_to_date : ℚ))
            / (((s.total_projects : ℤ) - (s.excluded : ℤ) : ℤ) : ℚ) * 100)) ∧
    (SyncSummary.mk 1 10 4 0 4 0 2 0 []).success_rate = 100 ∧
    (SyncSummary.mk 2 10 5 3 1 0 0 1 []).success_rate = 90 ∧
    (SyncSummary.mk 1 0 0 0 0 0 0 0 []).success_rate = 100 ∧
    (SyncSummary.mk 1 2 1 0 0 1 0 0 []).success_rate = 50 := by
  refine ⟨fun s => ⟨fun h => ?_, fun h => ?_⟩, ?_, ?_, ?_, ?_⟩ <;>
    simp only [SyncSummary.success_rate]
  · rw [if_pos h]
  · rw [if_neg h]
  · norm_num
  · norm_num
  · norm_num
  · norm_num

/-- Witness for C5: instantiating the general formula at a summary with
`total = 5`, `excluded = 1`, three successes gives rate `75`. -/
theorem success_rate_spec_witness :
    (SyncSummary.mk 1 5 2 0 1 0 1 0 []).success_rate = 75 := by
  have h := (success_rate_spec.1 (SyncSummary.mk 1 5 2 0 1 0 1 0 [])).2 (by decide)
  rw [h]; norm_num

/-- C4: with a non-empty include list, a project whose namespace path
glob-matches no include pattern is excluded regardless of the exclude
patterns; a project matching some exclude pattern is excluded; and a
project is included (not excluded) iff it passes both gates. -/
theorem is_project_excluded_spec :
    ∀ (cfg : Config) (p : GitLabProject),
      (cfg.include_patterns ≠ [] →
        (∀ pat ∈ cfg.include_patterns,
          fnmatch p.path_with_namespace pat = false) →
        is_project_excluded cfg p = true) ∧
      ((∃ pat ∈ cfg.exclude_patterns,
          fnmatch p.path_with_namespace pat = true) →
        is_project_excluded cfg p = true) ∧
      (is_project_excluded cfg p = false ↔
        ((cfg.include_patterns = [] ∨
          ∃ pat ∈ cfg.include_patterns,
            fnmatch p.path_with_namespace pat = true) ∧
         (∀ pat ∈ cfg.exclude_patterns,
            fnmatch p.path_with_namespace pat = false))) := by
  intro cfg p
  simp only [is_project_excluded]
  by_cases hgate : cfg.include_patterns ≠ [] ∧
      ¬ cfg.include_patterns.any (fun pattern => fnmatch p.path_with_namespace pattern)
  · rw [if_pos hgate]
    simp only [List.any_eq_true] at hgate
    refine ⟨fun _ _ => rfl, fun _ => rfl, ?_⟩
    constructor
    · intro h; exact absurd h (by simp)
    · rintro ⟨hin | ⟨pat, hmem, hpat⟩, _⟩
      · exact absurd hin hgate.1
      · exact absurd ⟨pat, hmem, hpat⟩ hgate.2
  · rw [if_neg hgate]
    push_neg at hgate
    refine ⟨?_, ?_, ?_⟩
    · intro hne hnone
      rcases List.any_eq_true.mp (hgate hne) with ⟨pat, hmem, hpat⟩
      exact absurd hpat (by simp [hnone pat hmem])
    · intro ⟨pat, hmem, hpat⟩
      exact List.any_eq_true.mpr ⟨pat, hmem, by simp [hpat]⟩
    · rw [Bool.eq_false_iff, Ne, List.any_eq_true]
      push_neg
      constructor
      · intro h
        refine ⟨?_, fun pat hmem => ?_⟩
        · by_cases hni : cfg.include_patterns = []
          · exact Or.inl hni
          · rcases List.any_eq_true.mp (hgate hni) with ⟨pat, hmem, hpat⟩
            exact Or.inr ⟨pat, hmem, by simpa using hpat⟩
        · have := h pat hmem
          simpa using this
      · rintro ⟨_, hexc⟩ pat hmem
        simp [hexc pat hmem]

/-- Witness for C4: a concrete configuration with include pattern
`group/*` and exclude pattern `*/secret-*`: `other/app` fails the
include gate; `group/secret-x` matches an exclude pattern; `group/app`
passes both gates. -/
theorem is_project_excluded_spec_witness :
    is_project_excluded
        (Config.mk [] CloneMethod.http [] false true true true 0 3 0 false
          false false ["group/*".data] ["*/secret-*".data] 4)
        (GitLabProject.mk 1 [] [] "other/app".data [] [] [] 1 [] none) = true ∧
    is_project_excluded
        (Config.mk [] CloneMethod.http [] false true true true 0 3 0 false
          false false ["group/*".data] ["*/secret-*".data] 4)
        (GitLabProject.mk 2 [] [] "group/secret-x".data [] [] [] 1 [] none) = true ∧
    is_project_excluded
        (Config.mk [] CloneMethod.http [] false true true true 0 3 0 false
          false false ["group/*".data] ["*/secret-*".data] 4)
        (GitLabProject.mk 3 [] [] "group/app".data [] [] [] 1 [] none) = false := by
  refine ⟨?_, ?_, ?_⟩
  · exact (is_project_excluded_spec _ _).1 (by decide) (by decide)
  · exact (is_project_excluded_spec _ _).2.1 ⟨"*/secret-*".data, by decide, by decide⟩
  · exact (is_project_excluded_spec _ _).2.2.mpr
      ⟨Or.inr ⟨"group/*".data, by decide, by decide⟩, by decide⟩

/-- C1: `determine_project_action` returns, in source order: `TO_CLONE`
when the path does not exist; `IGNORED` when the path exists but is not
a repository; `IGNORED` when it is a repository whose normalized origin
URL matches neither project URL; `ALREADY_UP_TO_DATE` otherwise — and in
both `IGNORED` cases `sync_project` performs no effect at all (nothing
deleted, overwritten or cloned into) and produces an `ignored` result. -/
theorem determine_project_action_spec :
    ∀ (cfg : Config) (p : GitLabProject) (o : ProjectOracles),
      (o.local_state.pathExists = false →
        determine_project_action o.local_state p = ProjectStatus.TO_CLONE) ∧
      (o.local_state.pathExists = true →
        is_git_repository o.local_state = false →
        determine_project_action o.local_state p = ProjectStatus.IGNORED ∧
        sync_project cfg p o =
          (⟨p, ProjectStatus.IGNORED, get_local_path cfg p, some .conflict⟩, [])) ∧
      (o.local_state.pathExists = true →
        is_git_repository o.local_state = true →
        matches_project o.local_state p = false →
        determine_project_action o.local_state p = ProjectStatus.IGNORED ∧
        sync_project cfg p o =
          (⟨p, ProjectStatus.IGNORED, get_local_path cfg p, some .conflict⟩, [])) ∧
      (o.local_state.pathExists = true →
        is_git_repository o.local_state = true →
        matches_project o.local_state p = true →
        determine_project_action o.local_state p =
          ProjectStatus.ALREADY_UP_TO_DATE) := by
  intro cfg p o
  refine ⟨fun h1 => ?_, fun h1 h2 => ⟨?_, ?_⟩, fun h1 h2 h3 => ⟨?_, ?_⟩,
    fun h1 h2 h3 => ?_⟩ <;>
    simp [determine_project_action, sync_project, h1] <;>
    simp_all [determine_project_action, sync_project]

/-- Witness for C1: a concrete existing directory that is not a git
repository is left untouched and reported `ignored`. -/
theorem determine_project_action_spec_witness :
    sync_project
        (Config.mk "/m".data CloneMethod.http [] false true true true 0 3 0
          false false false [] [] 4)
        (GitLabProject.mk 7 [] [] "g/p".data "git@h:g/p.git".data
          "https://h/g/p.git".data [] 1 [] none)
        (ProjectOracles.mk (LocalState.mk true none)
          (CloneOracle.mk (.ok ()) (fun _ => .ok ()) (fun _ => false))
          (UpdateOracle.mk (RepoOracle.mk (.ok ()) .inf (.ok false) (.ok false)
            (.ok 0)) false (fun _ => .ok ()))) =
      (⟨GitLabProject.mk 7 [] [] "g/p".data "git@h:g/p.git".data
          "https://h/g/p.git".data [] 1 [] none,
        ProjectStatus.IGNORED, "/m/g/p".data, some .conflict⟩, []) := by
  have h := (determine_project_action_spec
    (Config.mk "/m".data CloneMethod.http [] false true true true 0 3 0
      false false false [] [] 4)
    (GitLabProject.mk 7 [] [] "g/p".data "git@h:g/p.git".data
      "https://h/g/p.git".data [] 1 [] none)
    (ProjectOracles.mk (LocalState.mk true none)
      (CloneOracle.mk (.ok ()) (fun _ => .ok ()) (fun _ => false))
      (UpdateOracle.mk (RepoOracle.mk (.ok ()) .inf (.ok false) (.ok false)
        (.ok 0)) false (fun _ => .ok ())))).2.1 rfl rfl
  exact h.2

/-- C2: `check_if_behind_remote` evaluates its guards in priority order:
recent fetch (when the skip threshold is positive) beats everything —
in particular a dirty tree with a recent fetch reports "fetch recent" —
then dirty tree, then detached HEAD, then the smart commits-behind
check (`0` behind means no update, otherwise update with the count),
and with smart update disabled the fallback is a scheduled update. -/
theorem check_if_behind_remote_priority :
    ∀ (cfg : Config) (o : RepoOracle) (d dt : Bool),
      o.openRepo = .ok () → o.is_dirty = .ok d → o.is_detached = .ok dt →
      ((0 < cfg.skip_recent_hours ∧ o.hours_ago.ltQ cfg.skip_recent_hours) →
        check_if_behind_remote cfg o =
          ⟨false, .fetch_recent, 0, o.hours_ago⟩) ∧
      (¬ (0 < cfg.skip_recent_hours ∧ o.hours_ago.ltQ cfg.skip_recent_hours) →
        d = true →
        check_if_behind_remote cfg o =
          ⟨false, .local_modifications, 0, o.hours_ago⟩) ∧
      (¬ (0 < cfg.skip_recent_hours ∧ o.hours_ago.ltQ cfg.skip_recent_hours) →
        d = false → dt = true →
        check_if_behind_remote cfg o =
          ⟨true, .detached_head, 0, o.hours_ago⟩) ∧
      (¬ (0 < cfg.skip_recent_hours ∧ o.hours_ago.ltQ cfg.skip_recent_hours) →
        d = false → dt = false → cfg.smart_update = true →
        (count_commits_behind o = 0 →
          check_if_behind_remote cfg o =
            ⟨false, .already_current, 0, o.hours_ago⟩) ∧
        (count_commits_behind o ≠ 0 →
          check_if_behind_remote cfg o =
            ⟨true, .commits_behind_remote (count_commits_behind o),
             count_commits_behind o, o.hours_ago⟩)) ∧
      (¬ (0 < cfg.skip_recent_hours ∧ o.hours_ago.ltQ cfg.skip_recent_hours) →
        d = false → dt = false → cfg.smart_update = false →
        check_if_behind_remote cfg o =
          ⟨true, .scheduled_update, 0, o.hours_ago⟩) := by
  intro cfg o d dt hopen hdirty hdet
  simp only [check_if_behind_remote, check_body, hopen, hdirty, hdet]
  refine ⟨fun h => ?_, fun h hd => ?_, fun h hd hdt => ?_,
    fun h hd hdt hs => ⟨fun hc => ?_, fun hc => ?_⟩, fun h hd hdt hs => ?_⟩ <;>
    subst_vars <;> simp [h, *]

/-- Witness for C2: a dirty tree with a recent fetch reports
"fetch recent", not "local modifications". -/
theorem check_if_behind_remote_priority_witness :
    check_if_behind_remote
        (Config.mk [] CloneMethod.http [] false true true true 24 3 0 false
          false false [] [] 4)
        (RepoOracle.mk (.ok ()) (.fin 1) (.ok true) (.ok false) (.ok 5)) =
      ⟨false, .fetch_recent, 0, .fin 1⟩ := by
  exact (check_if_behind_remote_priority
    (Config.mk [] CloneMethod.http [] false true true true 24 3 0 false
      false false [] [] 4)
    (RepoOracle.mk (.ok ()) (.fin 1) (.ok true) (.ok false) (.ok 5))
    true false rfl rfl rfl).1 ⟨by norm_num, by norm_num [HoursSince.ltQ]⟩

/-- C3 counterexample: an unexpected error inside the commits-behind
counting step (`count_step` raising) does not default to "update
needed": `_count_commits_behind` swallows it into a count of `0`, so
`check_if_behind_remote` reports `needs_update = false`
("already current"), contradicting the claim at this input. -/
theorem check_error_counterexample :
    (RepoOracle.mk (.ok ()) (.fin 50) (.ok false) (.ok false)
        (.error 7)).count_step = .error 7 ∧
    check_if_behind_remote
        (Config.mk [] CloneMethod.http [] false true true true 0 3 0 false
          false false [] [] 4)
        (RepoOracle.mk (.ok ()) (.fin 50) (.ok false) (.ok false)
          (.error 7)) =
      ⟨false, .already_current, 0, .fin 50⟩ := by
  constructor
  · rfl
  · rfl

/-- C3 (amended): an unexpected error that reaches
`check_if_behind_remote`'s own handler — any probe failure outside the
commits-behind counting step, whose errors `_count_commits_behind`
swallows into a count of `0` — defaults to `needs_update = true`. -/
theorem check_if_behind_remote_error_default :
    ∀ (cfg : Config) (o : RepoOracle) (e : Nat),
      check_body cfg o = .error e →
      check_if_behind_remote cfg o = ⟨true, .check_failed, 0, .fin 0⟩ := by
  intro cfg o e h
  simp [check_if_behind_remote, h]

/-- Witness for C3 (amended): a repository whose dirty probe raises is
reported as needing an update. -/
theorem check_if_behind_remote_error_default_witness :
    check_if_behind_remote
        (Config.mk [] CloneMethod.http [] false true true true 0 3 0 false
          false false [] [] 4)
        (RepoOracle.mk (.ok ()) (.fin 50) (.error 3) (.ok false) (.ok 0)) =
      ⟨true, .check_failed, 0, .fin 0⟩ := by
  exact check_if_behind_remote_error_default
    (Config.mk [] CloneMethod.http [] false true true true 0 3 0 false
      false false [] [] 4)
    (RepoOracle.mk (.ok ()) (.fin 50) (.error 3) (.ok false) (.ok 0))
    3 rfl

theorem sync_project_project_eq (cfg : Config) (p : GitLabProject)
    (o : ProjectOracles) : (sync_project cfg p o).1.project = p := by
  simp only [sync_project]
  split <;> [skip; split] <;> [rfl; split <;> rfl; rfl]

theorem status_count_sum (rs : List SyncResult)
    (h : ∀ r ∈ rs, r.status ≠ ProjectStatus.TO_CLONE) :
    rs.countP (fun r => decide (r.status = ProjectStatus.CLONED)) +
    rs.countP (fun r => decide (r.status = ProjectStatus.UPDATED)) +
    rs.countP (fun r => decide (r.status = ProjectStatus.ALREADY_UP_TO_DATE)) +
    rs.countP (fun r => decide (r.status = ProjectStatus.IGNORED)) +
    rs.countP (fun r => decide (r.status = ProjectStatus.EXCLUDED)) +
    rs.countP (fun r => decide (r.status = ProjectStatus.ERROR)) = rs.length := by
  induction rs with
  | nil => simp
  | cons r rs ih =>
    have hr := h r (List.mem_cons_self r rs)
    have ht := ih (fun x hx => h x (List.mem_cons_of_mem r hx))
    simp only [List.countP_cons, List.length_cons]
    cases hs : r.status <;> simp [hs] at hr ⊢ <;> omega

/-- C10: every `SyncResult` produced by `sync_project` has one of the
five worker statuses (`to_clone` and `excluded` never appear), and for
any result list free of `to_clone` — such as worker results plus
excluded results — the six counters of `build_summary` sum exactly to
`total_projects`, which is the length of the list. -/
theorem sync_status_invariant :
    (∀ (cfg : Config) (p : GitLabProject) (o : ProjectOracles),
      (sync_project cfg p o).1.status ∈
        [ProjectStatus.CLONED, ProjectStatus.UPDATED,
         ProjectStatus.ALREADY_UP_TO_DATE, ProjectStatus.IGNORED,
         ProjectStatus.ERROR]) ∧
    (∀ (gids : List Str) (rs : List SyncResult),
      (∀ r ∈ rs, r.status ≠ ProjectStatus.TO_CLONE) →
      (build_summary gids rs).cloned + (build_summary gids rs).updated +
        (build_summary gids rs).already_up_to_date +
        (build_summary gids rs).ignored + (build_summary gids rs).excluded +
        (build_summary gids rs).errors = (build_summary gids rs).total_projects ∧
      (build_summary gids rs).total_projects = rs.length) := by
  constructor
  · intro cfg p o
    simp only [sync_project]
    split
    · split <;> simp
    · split
      · split
        · split <;> [split <;> simp; simp]
        · simp
      · simp
  · intro gids rs h
    exact ⟨status_count_sum rs h, rfl⟩

/-- Witness for C10: on a concrete mixed result list (one of each status
except `to_clone`) the counters sum to the length `6`. -/
theorem sync_status_invariant_witness :
    (build_summary ["g".data]
        [SyncResult.mk (GitLabProject.mk 1 [] [] [] [] [] [] 1 [] none)
          ProjectStatus.CLONED [] none,
         SyncResult.mk (GitLabProject.mk 2 [] [] [] [] [] [] 1 [] none)
          ProjectStatus.UPDATED [] none,
         SyncResult.mk (GitLabProject.mk 3 [] [] [] [] [] [] 1 [] none)
          ProjectStatus.ALREADY_UP_TO_DATE [] none,
         SyncResult.mk (GitLabProject.mk 4 [] [] [] [] [] [] 1 [] none)
          ProjectStatus.IGNORED [] none,
         SyncResult.mk (GitLabProject.mk 5 [] [] [] [] [] [] 1 [] none)
          ProjectStatus.EXCLUDED [] (some .excluded_note),
         SyncResult.mk (GitLabProject.mk 6 [] [] [] [] [] [] 1 [] none)
          ProjectStatus.ERROR [] (some (.worker_exception 1))]).cloned +
      (build_summary ["g".data]
        [SyncResult.mk (GitLabProject.mk 1 [] [] [] [] [] [] 1 [] none)
          ProjectStatus.CLONED [] none,
         SyncResult.mk (GitLabProject.mk 2 [] [] [] [] [] [] 1 [] none)
          ProjectStatus.UPDATED [] none,
         SyncResult.mk (GitLabProject.mk 3 [] [] [] [] [] [] 1 [] none)
          ProjectStatus.ALREADY_UP_TO_DATE [] none,
         SyncResult.mk (GitLabProject.mk 4 [] [] [] [] [] [] 1 [] none)
          ProjectStatus.IGNORED [] none,
         SyncResult.mk (GitLabProject.mk 5 [] [] [] [] [] [] 1 [] none)
          ProjectStatus.EXCLUDED [] (some .excluded_note),
         SyncResult.mk (GitLabProject.mk 6 [] [] [] [] [] [] 1 [] none)
          ProjectStatus.ERROR [] (some (.worker_exception 1))]).updated +
      (build_summary ["g".data]
        [SyncResult.mk (GitLabProject.mk 1 [] [] [] [] [] [] 1 [] none)
          ProjectStatus.CLONED [] none,
         SyncResult.mk (GitLabProject.mk 2 [] [] [] [] [] [] 1 [] none)
          ProjectStatus.UPDATED [] none,
         SyncResult.mk (GitLabProject.mk 3 [] [] [] [] [] [] 1 [] none)
          ProjectStatus.ALREADY_UP_TO_DATE [] none,
         SyncResult.mk (GitLabProject.mk 4 [] [] [] [] [] [] 1 [] none)
          ProjectStatus.IGNORED [] none,
         SyncResult.mk (GitLabProject.mk 5 [] [] [] [] [] [] 1 [] none)
          ProjectStatus.EXCLUDED [] (some .excluded_note),
         SyncResult.mk (GitLabProject.mk 6 [] [] [] [] [] [] 1 [] none)
          ProjectStatus.ERROR [] (some (.worker_exception 1))]).already_up_to_date +
      (build_summary ["g".data]
        [SyncResult.mk (GitLabProject.mk 1 [] [] [] [] [] [] 1 [] none)
          ProjectStatus.CLONED [] none,
         SyncResult.mk (GitLabProject.mk 2 [] [] [] [] [] [] 1 [] none)
          ProjectStatus.UPDATED [] none,
         SyncResult.mk (GitLabProject.mk 3 [] [] [] [] [] [] 1 [] none)
          ProjectStatus.ALREADY_UP_TO_DATE [] none,
         SyncResult.mk (GitLabProject.mk 4 [] [] [] [] [] [] 1 [] none)
          ProjectStatus.IGNORED [] none,
         SyncResult.mk (GitLabProject.mk 5 [] [] [] [] [] [] 1 [] none)
          ProjectStatus.EXCLUDED [] (some .excluded_note),
         SyncResult.mk (GitLabProject.mk 6 [] [] [] [] [] [] 1 [] none)
          ProjectStatus.ERROR [] (some (.worker_exception 1))]).ignored +
      (build_summary ["g".data]
        [SyncResult.mk (GitLabProject.mk 1 [] [] [] [] [] [] 1 [] none)
          ProjectStatus.CLONED [] none,
         SyncResult.mk (GitLabProject.mk 2 [] [] [] [] [] [] 1 [] none)
          ProjectStatus.UPDATED [] none,
         SyncResult.mk (GitLabProject.mk 3 [] [] [] [] [] [] 1 [] none)
          ProjectStatus.ALREADY_UP_TO_DATE [] none,
         SyncResult.mk (GitLabProject.mk 4 [] [] [] [] [] [] 1 [] none)
          ProjectStatus.IGNORED [] none,
         SyncResult.mk (GitLabProject.mk 5 [] [] [] [] [] [] 1 [] none)
          ProjectStatus.EXCLUDED [] (some .excluded_note),
         SyncResult.mk (GitLabProject.mk 6 [] [] [] [] [] [] 1 [] none)
          ProjectStatus.ERROR [] (some (.worker_exception 1))]).excluded +
      (build_summary ["g".data]
        [SyncResult.mk (GitLabProject.mk 1 [] [] [] [] [] [] 1 [] none)
          ProjectStatus.CLONED [] none,
         SyncResult.mk (GitLabProject.mk 2 [] [] [] [] [] [] 1 [] none)
          ProjectStatus.UPDATED [] none,
         SyncResult.mk (GitLabProject.mk 3 [] [] [] [] [] [] 1 [] none)
          ProjectStatus.ALREADY_UP_TO_DATE [] none,
         SyncResult.mk (GitLabProject.mk 4 [] [] [] [] [] [] 1 [] none)
          ProjectStatus.IGNORED [] none,
         SyncResult.mk (GitLabProject.mk 5 [] [] [] [] [] [] 1 [] none)
          ProjectStatus.EXCLUDED [] (some .excluded_note),
         SyncResult.mk (GitLabProject.mk 6 [] [] [] [] [] [] 1 [] none)
          ProjectStatus.ERROR [] (some (.worker_exception 1))]).errors = 6 := by
  have h := (sync_status_invariant.2 ["g".data]
    [SyncResult.mk (GitLabProject.mk 1 [] [] [] [] [] [] 1 [] none)
      ProjectStatus.CLONED [] none,
     SyncResult.mk (GitLabProject.mk 2 [] [] [] [] [] [] 1 [] none)
      ProjectStatus.UPDATED [] none,
     SyncResult.mk (GitLabProject.mk 3 [] [] [] [] [] [] 1 [] none)
      ProjectStatus.ALREADY_UP_TO_DATE [] none,
     SyncResult.mk (GitLabProject.mk 4 [] [] [] [] [] [] 1 [] none)
      ProjectStatus.IGNORED [] none,
     SyncResult.mk (GitLabProject.mk 5 [] [] [] [] [] [] 1 [] none)
      ProjectStatus.EXCLUDED [] (some .excluded_note),
     SyncResult.mk (GitLabProject.mk 6 [] [] [] [] [] [] 1 [] none)
      ProjectStatus.ERROR [] (some (.worker_exception 1))] (by decide))
  rw [h.1, h.2]
  rfl

/-- C9: the parallel phase yields exactly one `SyncResult` per submitted
project — none missing, none duplicated, whatever the completion order —
and a worker failure (an exception escaping `sync_project`) becomes that
project's own `error` result while every other project's result is still
delivered. -/
theorem sync_projects_parallel_spec :
    ∀ (cfg : Config) (oracles : GitLabProject → ProjectOracles)
      (escape : GitLabProject → Option Nat)
      (projects completion_order : List GitLabProject),
      completion_order.Perm projects →
      (sync_projects_parallel cfg oracles escape completion_order).length
          = projects.length ∧
      ((sync_projects_parallel cfg oracles escape completion_order).map
          (fun r => r.project)).Perm projects ∧
      (∀ p e, p ∈ projects → escape p = some e →
        (⟨p, ProjectStatus.ERROR, get_local_path cfg p,
            some (.worker_exception e)⟩ : SyncResult)
          ∈ sync_projects_parallel cfg oracles escape completion_order) ∧
      (∀ p, p ∈ projects → escape p = none →
        (sync_project cfg p (oracles p)).1
          ∈ sync_projects_parallel cfg oracles escape completion_order) := by
  intro cfg oracles escape projects completion_order hperm
  have hproj : ∀ p, ((fun project =>
      match escape project with
      | some e => (⟨project, ProjectStatus.ERROR, get_local_path cfg project,
          some (.worker_exception e)⟩ : SyncResult)
      | none => (sync_project cfg project (oracles project)).1) p).project = p := by
    intro p
    cases h : escape p with
    | none => simp only [h]; exact sync_project_project_eq cfg p (oracles p)
    | some e => simp only [h]
  refine ⟨?_, ?_, ?_, ?_⟩
  · simp only [sync_projects_parallel, List.length_map]
    exact hperm.length_eq
  · simp only [sync_projects_parallel, List.map_map]
    have : (completion_order.map (fun project => (
        match escape project with
        | some e => (⟨project, ProjectStatus.ERROR, get_local_path cfg project,
            some (.worker_exception e)⟩ : SyncResult)
        | none => (sync_project cfg project (oracles project)).1).project))
        = completion_order.map id := by
      refine List.map_congr_left (fun p _ => hproj p)
    simpa [Function.comp] using (this ▸ (by simpa using hperm) :
      (completion_order.map _).Perm projects)
  · intro p e hp he
    refine List.mem_map.mpr ⟨p, hperm.mem_iff.mpr hp, ?_⟩
    simp [he]
  · intro p hp he
    refine List.mem_map.mpr ⟨p, hperm.mem_iff.mpr hp, ?_⟩
    simp [he]

/-- Witness for C9: two projects, completion in reversed order, the
first one's worker raising: both results are present, the failed one as
an `error` result. -/
theorem sync_projects_parallel_spec_witness :
    (sync_projects_parallel
        (Config.mk "/m".data CloneMethod.http [] true true true true 0 3 0
          false false false [] [] 4)
        (fun _ => ProjectOracles.mk (LocalState.mk false none)
          (CloneOracle.mk (.ok ()) (fun _ => .ok ()) (fun _ => false))
          (UpdateOracle.mk (RepoOracle.mk (.ok ()) .inf (.ok false) (.ok false)
            (.ok 0)) false (fun _ => .ok ())))
        (fun p => if p.id = 1 then some 9 else none)
        [GitLabProject.mk 2 [] [] "g/b".data [] [] [] 1 [] none,
         GitLabProject.mk 1 [] [] "g/a".data [] [] [] 1 [] none]).length = 2 ∧
    (⟨GitLabProject.mk 1 [] [] "g/a".data [] [] [] 1 [] none,
        ProjectStatus.ERROR, "/m/g/a".data, some (.worker_exception 9)⟩ :
        SyncResult)
      ∈ sync_projects_parallel
        (Config.mk "/m".data CloneMethod.http [] true true true true 0 3 0
          false false false [] [] 4)
        (fun _ => ProjectOracles.mk (LocalState.mk false none)
          (CloneOracle.mk (.ok ()) (fun _ => .ok ()) (fun _ => false))
          (UpdateOracle.mk (RepoOracle.mk (.ok ()) .inf (.ok false) (.ok false)
            (.ok 0)) false (fun _ => .ok ())))
        (fun p => if p.id = 1 then some 9 else none)
        [GitLabProject.mk 2 [] [] "g/b".data [] [] [] 1 [] none,
         GitLabProject.mk 1 [] [] "g/a".data [] [] [] 1 [] none] := by
  have h := sync_projects_parallel_spec
    (Config.mk "/m".data CloneMethod.http [] true true true true 0 3 0
      false false false [] [] 4)
    (fun _ => ProjectOracles.mk (LocalState.mk false none)
      (CloneOracle.mk (.ok ()) (fun _ => .ok ()) (fun _ => false))
      (UpdateOracle.mk (RepoOracle.mk (.ok ()) .inf (.ok false) (.ok false)
        (.ok 0)) false (fun _ => .ok ())))
    (fun p => if p.id = 1 then some 9 else none)
    [GitLabProject.mk 1 [] [] "g/a".data [] [] [] 1 [] none,
     GitLabProject.mk 2 [] [] "g/b".data [] [] [] 1 [] none]
    [GitLabProject.mk 2 [] [] "g/b".data [] [] [] 1 [] none,
     GitLabProject.mk 1 [] [] "g/a".data [] [] [] 1 [] none]
    (List.Perm.swap _ _ _)
  refine ⟨by rw [h.1]; rfl, ?_⟩
  exact h.2.2.1 (GitLabProject.mk 1 [] [] "g/a".data [] [] [] 1 [] none) 9
    (by simp) (by simp)

/-- C7 counterexample: with dry-run enabled, an existing repository that
matches its project and is five commits behind (so an update would be
needed) does not report a would-update status: `update_repository`
short-circuits with `was_updated = false` and the `SyncResult` status is
`already_up_to_date`, not `updated` — refuting the claim's
"would-update for a stale existing repository" at this input. -/
theorem dry_run_purity_counterexample :
    (sync_project
        (Config.mk "/m".data CloneMethod.http [] true true true true 0 3 0
          false false false [] [] 4)
        (GitLabProject.mk 7 [] [] "g/p".data "git@h:g/p.git".data
          "https://h/g/p.git".data [] 1 [] none)
        (ProjectOracles.mk
          (LocalState.mk true (some (RepoMeta.mk (some "https://h/g/p.git".data))))
          (CloneOracle.mk (.ok ()) (fun _ => .ok ()) (fun _ => false))
          (UpdateOracle.mk (RepoOracle.mk (.ok ()) (.fin 100) (.ok false)
            (.ok false) (.ok 5)) false (fun _ => .ok ())))).1.status =
      ProjectStatus.ALREADY_UP_TO_DATE ∧
    (sync_project
        (Config.mk "/m".data CloneMethod.http [] true true true true 0 3 0
          false false false [] [] 4)
        (GitLabProject.mk 7 [] [] "g/p".data "git@h:g/p.git".data
          "https://h/g/p.git".data [] 1 [] none)
        (ProjectOracles.mk
          (LocalState.mk true (some (RepoMeta.mk (some "https://h/g/p.git".data))))
          (CloneOracle.mk (.ok ()) (fun _ => .ok ()) (fun _ => false))
          (UpdateOracle.mk (RepoOracle.mk (.ok ()) (.fin 100) (.ok false)
            (.ok false) (.ok 5)) false (fun _ => .ok ())))).1.status ≠
      ProjectStatus.UPDATED ∧
    count_commits_behind (RepoOracle.mk (.ok ()) (.fin 100) (.ok false)
        (.ok false) (.ok 5)) = 5 := by
  refine ⟨by decide, by decide, rfl⟩

/-- C7 (amended): with dry-run enabled, `clone_repository` and
`update_repository` return success with an empty effect trace — no
directory creation, no clone/fetch, no retry — `sync_project` never
touches the filesystem, a missing path reports its prospective `cloned`
status, and an existing matching repository reports
`already_up_to_date` (not a would-update marker). -/
theorem dry_run_purity :
    ∀ (cfg : Config) (p : GitLabProject) (path : Str) (o : ProjectOracles),
      cfg.dry_run = true →
      clone_repository cfg p path o.clone = (⟨true, none⟩, []) ∧
      update_repository cfg path p o.update = (⟨true, none, false⟩, []) ∧
      (sync_project cfg p o).2 = [] ∧
      (o.local_state.pathExists = false →
        sync_project cfg p o =
          (⟨p, ProjectStatus.CLONED, get_local_path cfg p, none⟩, [])) ∧
      (determine_project_action o.local_state p =
          ProjectStatus.ALREADY_UP_TO_DATE →
        sync_project cfg p o =
          (⟨p, ProjectStatus.ALREADY_UP_TO_DATE, get_local_path cfg p, none⟩,
            [])) := by
  intro cfg p path o hdry
  have hclone : ∀ oc, clone_repository cfg p path oc = (⟨true, none⟩, []) := by
    intro oc; simp [clone_repository, hdry]
  have hupd : ∀ ou, update_repository cfg path p ou = (⟨true, none, false⟩, []) := by
    intro ou
    simp only [update_repository, hdry]
    split <;> simp
  refine ⟨hclone o.clone, hupd o.update, ?_, ?_, ?_⟩
  · simp only [sync_project]
    split
    · simp [clone_repository, hdry]
    · split
      · split
        · simp only [update_repository, hdry]
          split <;> simp
        · rfl
      · rfl
  · intro hne
    have : determine_project_action o.local_state p = ProjectStatus.TO_CLONE := by
      simp [determine_project_action, hne]
    simp [sync_project, this, clone_repository, hdry]
  · intro hact
    simp only [sync_project, hact]
    split
    · simp_all
    · split
      · split
        · simp_all [update_repository, hdry]
        · rfl
      · simp_all

/-- Witness for C7 (amended): a concrete dry-run over a missing path
performs nothing and reports `cloned`. -/
theorem dry_run_purity_witness :
    sync_project
        (Config.mk "/m".data CloneMethod.http [] true true true true 0 3 0
          false false false [] [] 4)
        (GitLabProject.mk 7 [] [] "g/p".data "git@h:g/p.git".data
          "https://h/g/p.git".data [] 1 [] none)
        (ProjectOracles.mk (LocalState.mk false none)
          (CloneOracle.mk (.ok ()) (fun _ => .ok ()) (fun _ => false))
          (UpdateOracle.mk (RepoOracle.mk (.ok ()) .inf (.ok false) (.ok false)
            (.ok 0)) false (fun _ => .ok ()))) =
      (⟨GitLabProject.mk 7 [] [] "g/p".data "git@h:g/p.git".data
          "https://h/g/p.git".data [] 1 [] none,
        ProjectStatus.CLONED, "/m/g/p".data, none⟩, []) := by
  have h := (dry_run_purity
    (Config.mk "/m".data CloneMethod.http [] true true true true 0 3 0
      false false false [] [] 4)
    (GitLabProject.mk 7 [] [] "g/p".data "git@h:g/p.git".data
      "https://h/g/p.git".data [] 1 [] none)
    "/m/g/p".data
    (ProjectOracles.mk (LocalState.mk false none)
      (CloneOracle.mk (.ok ()) (fun _ => .ok ()) (fun _ => false))
      (UpdateOracle.mk (RepoOracle.mk (.ok ()) .inf (.ok false) (.ok false)
        (.ok 0)) false (fun _ => .ok ()))) rfl).2.2.2.1 rfl
  exact h

/-! ## Trace observers for the retry discipline (claim C6) -/

/-- Seconds slept along a trace, in order. -/
def sleepDelays (tr : List Effect) : List Nat :=
  tr.filterMap (fun e => match e with | .sleep d => some d | _ => none)

/-- Number of clone attempts in a trace. -/
def countCloneAttempts (tr : List Effect) : Nat :=
  tr.countP (fun e => decide (e = Effect.clone_attempt))

/-- Number of fetch/pull attempts in a trace. -/
def countTransferAttempts (tr : List Effect) : Nat :=
  tr.countP (fun e =>
    decide (e = Effect.fetch_attempt ∨ e = Effect.pull_attempt))

/-- Segments strictly between consecutive clone attempts, given a trace
position just after a clone attempt (whatever follows the last attempt
is not a gap). -/
def gapsAfter : List Effect → List (List Effect)
  | [] => []
  | e :: rest =>
    if e = Effect.clone_attempt then [] :: gapsAfter rest
    else
      match gapsAfter rest with
      | [] => []
      | g :: gs => (e :: g) :: gs

/-- Segments strictly between consecutive clone attempts of a trace. -/
def attemptGaps : List Effect → List (List Effect)
  | [] => []
  | e :: rest =>
    if e = Effect.clone_attempt then gapsAfter rest else attemptGaps rest

theorem gapsAfter_of_no_attempt {l : List Effect}
    (h : ∀ e ∈ l, e ≠ Effect.clone_attempt) : gapsAfter l = [] := by
  induction l with
  | nil => rfl
  | cons e rest ih =>
    rw [gapsAfter, if_neg (h e (List.mem_cons_self e rest)),
      ih (fun x hx => h x (List.mem_cons_of_mem e hx))]

theorem gapsAfter_append_no_attempt {x : List Effect} (y : List Effect)
    (h : ∀ e ∈ x, e ≠ Effect.clone_attempt) :
    gapsAfter (x ++ y) =
      match gapsAfter y with
      | [] => []
      | g :: gs => (x ++ g) :: gs := by
  induction x with
  | nil => simp; cases gapsAfter y <;> rfl
  | cons e x ih =>
    rw [List.cons_append, gapsAfter,
      if_neg (h e (List.mem_cons_self e x)),
      ih (fun a ha => h a (List.mem_cons_of_mem e ha))]
    cases gapsAfter y <;> rfl

theorem gapsAfter_append_trailing {y : List Effect} (x : List Effect)
    (h : ∀ e ∈ y, e ≠ Effect.clone_attempt) :
    gapsAfter (x ++ y) = gapsAfter x := by
  induction x with
  | nil => simpa using gapsAfter_of_no_attempt h
  | cons e x ih =>
    rw [List.cons_append, gapsAfter, gapsAfter]
    by_cases he : e = Effect.clone_attempt
    · rw [if_pos he, if_pos he, ih]
    · rw [if_neg he, if_neg he, ih]

theorem attemptGaps_append_no_attempt {x : List Effect} (y : List Effect)
    (h : ∀ e ∈ x, e ≠ Effect.clone_attempt) :
    attemptGaps (x ++ y) = attemptGaps y := by
  induction x with
  | nil => rfl
  | cons e x ih =>
    rw [List.cons_append, attemptGaps,
      if_neg (h e (List.mem_cons_self e x)),
      ih (fun a ha => h a (List.mem_cons_of_mem e ha))]

theorem attemptGaps_of_no_attempt {l : List Effect}
    (h : ∀ e ∈ l, e ≠ Effect.clone_attempt) : attemptGaps l = [] := by
  induction l with
  | nil => rfl
  | cons e rest ih =>
    rw [attemptGaps, if_neg (h e (List.mem_cons_self e rest)),
      ih (fun x hx => h x (List.mem_cons_of_mem e hx))]

theorem attemptGaps_append_trailing {y : List Effect} (x : List Effect)
    (h : ∀ e ∈ y, e ≠ Effect.clone_attempt) :
    attemptGaps (x ++ y) = attemptGaps x := by
  induction x with
  | nil => simpa using attemptGaps_of_no_attempt h
  | cons e x ih =>
    rw [List.cons_append, attemptGaps, attemptGaps]
    by_cases he : e = Effect.clone_attempt
    · rw [if_pos he, if_pos he]
      exact gapsAfter_append_trailing x h
    · rw [if_neg he, if_neg he, ih]

theorem cloneLoop_count (cfg : Config) (o : CloneOracle) :
    ∀ (fuel i : Nat) (last : Option Nat),
      countCloneAttempts (cloneLoop cfg o i fuel last).2 ≤ fuel := by
  intro fuel
  induction fuel with
  | zero => intro i last; simp [cloneLoop, countCloneAttempts]
  | succ fuel ih =>
    intro i last
    rw [cloneLoop]
    cases h : o.attempt i with
    | ok u =>
      dsimp only
      split <;>
        simp [countCloneAttempts, List.countP_cons, List.countP_nil]
    | error e =>
      dsimp only
      split
      · split <;>
          simp [countCloneAttempts, List.countP_cons, List.countP_nil]
      · have hrest := ih (i + 1) (some e)
        split <;>
          simp only [countCloneAttempts, List.countP_cons, List.countP_append,
            List.countP_nil] at hrest ⊢ <;>
          simp_all <;> omega

theorem cloneLoop_sleeps (cfg : Config) (o : CloneOracle) :
    ∀ (fuel i : Nat) (last : Option Nat),
      ∃ k, sleepDelays (cloneLoop cfg o i fuel last).2
        = (List.range' i k).map (2 ^ ·) := by
  intro fuel
  induction fuel with
  | zero => intro i last; exact ⟨0, by simp [cloneLoop, sleepDelays]⟩
  | succ fuel ih =>
    intro i last
    rw [cloneLoop]
    cases h : o.attempt i with
    | ok u =>
      refine ⟨0, ?_⟩
      dsimp only
      split <;> simp [sleepDelays]
    | error e =>
      dsimp only
      split
      · refine ⟨0, ?_⟩
        split <;> simp [sleepDelays]
      · obtain ⟨k, hk⟩ := ih (i + 1) (some e)
        refine ⟨k + 1, ?_⟩
        rw [List.range'_succ]
        split <;>
          simp [sleepDelays, List.filterMap_cons, List.filterMap_append] at hk ⊢ <;>
          exact hk

theorem chain'_lt_pow2_range' :
    ∀ (k i : Nat), List.Chain' (· < ·) ((List.range' i k).map (2 ^ ·)) := by
  intro k
  induction k with
  | zero => intro i; simp
  | succ k ih =>
    intro i
    rw [List.range'_succ]
    cases k with
    | zero => simp
    | succ k2 =>
      rw [List.range'_succ, List.map_cons, List.map_cons]
      refine List.chain'_cons.mpr ⟨?_, ?_⟩
      · exact Nat.pow_lt_pow_right (by norm_num) (by omega)
      · have := ih (i + 1)
        rw [List.range'_succ, List.map_cons] at this
        exact this

theorem cloneLoop_head (cfg : Config) (o : CloneOracle) (fuel i : Nat)
    (last : Option Nat) (h : 1 ≤ fuel) :
    ∃ tl, (cloneLoop cfg o i fuel last).2 = Effect.clone_attempt :: tl := by
  cases fuel with
  | zero => omega
  | succ fuel =>
    rw [cloneLoop]
    cases h2 : o.attempt i with
    | ok u =>
      dsimp only
      split <;> exact ⟨_, rfl⟩
    | error e =>
      dsimp only
      split
      · exact ⟨_, rfl⟩
      · exact ⟨_, rfl⟩

theorem cloneLoop_gaps_eq (cfg : Config) (o : CloneOracle) (fuel i : Nat)
    (e : Nat) (hfuel : 1 ≤ fuel) :
    attemptGaps (Effect.clone_attempt ::
        ((if o.target_exists_after i = true then [Effect.rmtree_target] else []) ++
          Effect.sleep (2 ^ i) :: (cloneLoop cfg o (i + 1) fuel (some e)).2))
      = ((if o.target_exists_after i = true then [Effect.rmtree_target] else []) ++
          [Effect.sleep (2 ^ i)]) ::
          attemptGaps (cloneLoop cfg o (i + 1) fuel (some e)).2 := by
  obtain ⟨tl, htl⟩ := cloneLoop_head cfg o fuel (i + 1) (some e) hfuel
  rw [attemptGaps, if_pos rfl, List.append_cons,
    gapsAfter_append_no_attempt ((cloneLoop cfg o (i + 1) fuel (some e)).2)
      (by intro a ha; split at ha <;> simp_all <;>
        rcases ha with h1 | h1 <;> simp [h1]),
    htl, gapsAfter, if_pos rfl, attemptGaps, if_pos rfl]
  simp

theorem cloneLoop_gaps (cfg : Config) (o : CloneOracle) :
    ∀ (fuel i : Nat) (last : Option Nat) (k : Nat) (g : List Effect),
      (attemptGaps (cloneLoop cfg o i fuel last).2)[k]? = some g →
      o.target_exists_after (i + k) = true →
      Effect.rmtree_target ∈ g := by
  intro fuel
  induction fuel with
  | zero => intro i last k g h; simp [cloneLoop, attemptGaps] at h
  | succ fuel ih =>
    intro i last k g h hex
    rw [cloneLoop] at h
    cases ha : o.attempt i with
    | ok u =>
      rw [ha] at h
      dsimp only at h
      rw [attemptGaps, if_pos rfl,
        gapsAfter_of_no_attempt (by split <;> simp)] at h
      simp at h
    | error e =>
      rw [ha] at h
      dsimp only at h
      by_cases hf : fuel = 0
      · rw [if_pos hf] at h
        rw [attemptGaps, if_pos rfl,
          gapsAfter_of_no_attempt (by split <;> simp)] at h
        simp at h
      · rw [if_neg hf] at h
        rw [List.cons_append] at h
        rw [cloneLoop_gaps_eq cfg o fuel i e (by omega)] at h
        cases k with
        | zero =>
          rw [Nat.add_zero] at hex
          simp only [hex, if_true, List.getElem?_cons_zero,
            Option.some_inj] at h
          subst h
          simp
        | succ k =>
          rw [List.getElem?_cons_succ] at h
          exact ih (i + 1) (some e) k g h
            (by rw [show i + 1 + k = i + (k + 1) by omega]; exact hex)

theorem cloneLoop_exhaust (cfg : Config) (o : CloneOracle) :
    ∀ (fuel i : Nat) (last : Option Nat),
      i + fuel = cfg.max_retries + 1 → 1 ≤ fuel →
      (∀ j, i ≤ j → j ≤ cfg.max_retries → ∃ e, o.attempt j = .error e) →
      ∃ e, o.attempt cfg.max_retries = .error e ∧
        (cloneLoop cfg o i fuel last).1 =
          ⟨false, some (.exhausted (cfg.max_retries + 1) (some e))⟩ := by
  intro fuel
  induction fuel with
  | zero => intro i last h h1 _; omega
  | succ fuel ih =>
    intro i last hsum _ hall
    obtain ⟨e, he⟩ := hall i (le_refl i) (by omega)
    rw [cloneLoop, he]
    dsimp only
    by_cases hf : fuel = 0
    · subst hf
      have hi : i = cfg.max_retries := by omega
      subst hi
      rw [if_pos rfl]
      exact ⟨e, he, rfl⟩
    · rw [if_neg hf]
      exact ih (i + 1) (some e) (by omega) (by omega)
        (fun j hj1 hj2 => hall j (by omega) hj2)

theorem updateLoop_count (cfg : Config) (o : UpdateOracle) :
    ∀ (fuel i : Nat) (last : Option Nat),
      countTransferAttempts (updateLoop cfg o i fuel last).2 ≤ fuel := by
  intro fuel
  induction fuel with
  | zero => intro i last; simp [updateLoop, countTransferAttempts]
  | succ fuel ih =>
    intro i last
    rw [updateLoop]
    cases h : o.attempt i with
    | ok u =>
      dsimp only
      split <;> [skip; split] <;>
        simp [countTransferAttempts, List.countP_cons, List.countP_nil]
    | error e =>
      dsimp only
      by_cases hf : fuel = 0
      · rw [if_pos hf]
        split <;> [skip; split] <;>
          simp [countTransferAttempts, List.countP_cons, List.countP_nil]
      · rw [if_neg hf]
        have hrest := ih (i + 1) (some e)
        split <;> [skip; split] <;>
          simp only [countTransferAttempts, List.countP_cons,
            List.countP_nil] at hrest ⊢ <;>
          simp_all

theorem updateLoop_sleeps (cfg : Config) (o : UpdateOracle) :
    ∀ (fuel i : Nat) (last : Option Nat),
      ∃ k, sleepDelays (updateLoop cfg o i fuel last).2
        = (List.range' i k).map (2 ^ ·) := by
  intro fuel
  induction fuel with
  | zero => intro i last; exact ⟨0, by simp [updateLoop, sleepDelays]⟩
  | succ fuel ih =>
    intro i last
    rw [updateLoop]
    cases h : o.attempt i with
    | ok u =>
      refine ⟨0, ?_⟩
      dsimp only
      split <;> [skip; split] <;> simp [sleepDelays]
    | error e =>
      dsimp only
      by_cases hf : fuel = 0
      · refine ⟨0, ?_⟩
        rw [if_pos hf]
        split <;> [skip; split] <;> simp [sleepDelays]
      · obtain ⟨k, hk⟩ := ih (i + 1) (some e)
        refine ⟨k + 1, ?_⟩
        rw [if_neg hf, List.range'_succ]
        split <;> [skip; split] <;>
          simp [sleepDelays, List.filterMap_cons] at hk ⊢ <;> exact hk

theorem updateLoop_exhaust (cfg : Config) (o : UpdateOracle) :
    ∀ (fuel i : Nat) (last : Option Nat),
      i + fuel = cfg.max_retries + 1 → 1 ≤ fuel →
      (∀ j, i ≤ j → j ≤ cfg.max_retries → ∃ e, o.attempt j = .error e) →
      ∃ e, o.attempt cfg.max_retries = .error e ∧
        (updateLoop cfg o i fuel last).1 =
          ⟨false, some (.exhausted (cfg.max_retries + 1) (some e)), false⟩ := by
  intro fuel
  induction fuel with
  | zero => intro i last h h1 _; omega
  | succ fuel ih =>
    intro i last hsum _ hall
    obtain ⟨e, he⟩ := hall i (le_refl i) (by omega)
    rw [updateLoop, he]
    dsimp only
    by_cases hf : fuel = 0
    · subst hf
      have hi : i = cfg.max_retries := by omega
      subst hi
      rw [if_pos rfl]
      exact ⟨e, he, rfl⟩
    · rw [if_neg hf]
      exact ih (i + 1) (some e) (by omega) (by omega)
        (fun j hj1 hj2 => hall j (by omega) hj2)

/-- C6: for both transport retry loops with `max_retries = N`: at most
`N + 1` attempts appear in the trace; the slept delays follow the
doubling schedule `2^0, 2^1, …` and hence strictly increase; in the
clone loop, whenever a failed attempt left a partially-created target
directory, a `rmtree` of that target occurs in the gap before the next
attempt; and when every attempt fails the surfaced result is failure
carrying the last attempt's error. -/
theorem retry_backoff_spec :
    ∀ (cfg : Config) (oc : CloneOracle) (ou : UpdateOracle),
      countCloneAttempts (clone_with_retry cfg oc).2 ≤ cfg.max_retries + 1 ∧
      (∃ k, sleepDelays (clone_with_retry cfg oc).2
          = (List.range k).map (2 ^ ·)) ∧
      List.Chain' (· < ·) (sleepDelays (clone_with_retry cfg oc).2) ∧
      (∀ (k : Nat) (g : List Effect),
        (attemptGaps (clone_with_retry cfg oc).2)[k]? = some g →
        oc.target_exists_after k = true → Effect.rmtree_target ∈ g) ∧
      ((∀ j, j ≤ cfg.max_retries → ∃ e, oc.attempt j = .error e) →
        ∃ e, oc.attempt cfg.max_retries = .error e ∧
          (clone_with_retry cfg oc).1 =
            ⟨false, some (.exhausted (cfg.max_retries + 1) (some e))⟩) ∧
      countTransferAttempts (update_with_retry cfg ou).2
          ≤ cfg.max_retries + 1 ∧
      (∃ k, sleepDelays (update_with_retry cfg ou).2
          = (List.range k).map (2 ^ ·)) ∧
      List.Chain' (· < ·) (sleepDelays (update_with_retry cfg ou).2) ∧
      ((∀ j, j ≤ cfg.max_retries → ∃ e, ou.attempt j = .error e) →
        ∃ e, ou.attempt cfg.max_retries = .error e ∧
          (update_with_retry cfg ou).1 =
            ⟨false, some (.exhausted (cfg.max_retries + 1) (some e)),
              false⟩) := by
  intro cfg oc ou
  have htrace : (clone_with_retry cfg oc).2 =
      (if cfg.clone_method = CloneMethod.http ∧ cfg.token ≠ [] then
        [Effect.create_askpass] else []) ++
      (cloneLoop cfg oc 0 (cfg.max_retries + 1) none).2 ++
      (if cfg.clone_method = CloneMethod.http ∧ cfg.token ≠ [] then
        [Effect.remove_askpass] else []) := rfl
  have hres : (clone_with_retry cfg oc).1 =
      (cloneLoop cfg oc 0 (cfg.max_retries + 1) none).1 := rfl
  have hcount : countCloneAttempts (clone_with_retry cfg oc).2 =
      countCloneAttempts (cloneLoop cfg oc 0 (cfg.max_retries + 1) none).2 := by
    rw [htrace]
    simp only [countCloneAttempts, List.countP_append]
    split <;> simp [List.countP_nil, List.countP_cons]
  have hsleep : sleepDelays (clone_with_retry cfg oc).2 =
      sleepDelays (cloneLoop cfg oc 0 (cfg.max_retries + 1) none).2 := by
    rw [htrace]
    simp only [sleepDelays, List.filterMap_append]
    split <;> simp [List.filterMap_cons]
  have hgaps : attemptGaps (clone_with_retry cfg oc).2 =
      attemptGaps (cloneLoop cfg oc 0 (cfg.max_retries + 1) none).2 := by
    rw [htrace]
    rw [attemptGaps_append_trailing _ (by split <;> simp)]
    exact attemptGaps_append_no_attempt _ (by split <;> simp)
  have husleep : sleepDelays (update_with_retry cfg ou).2 =
      sleepDelays (updateLoop cfg ou 0 (cfg.max_retries + 1) none).2 := rfl
  obtain ⟨kc, hkc⟩ := cloneLoop_sleeps cfg oc (cfg.max_retries + 1) 0 none
  obtain ⟨ku, hku⟩ := updateLoop_sleeps cfg ou (cfg.max_retries + 1) 0 none
  refine ⟨?_, ?_, ?_, ?_, ?_, ?_, ?_, ?_, ?_⟩
  · rw [hcount]; exact cloneLoop_count cfg oc (cfg.max_retries + 1) 0 none
  · exact ⟨kc, by rw [hsleep, hkc, List.range_eq_range']⟩
  · rw [hsleep, hkc]; exact chain'_lt_pow2_range' kc 0
  · intro k g hg hex
    rw [hgaps] at hg
    exact cloneLoop_gaps cfg oc (cfg.max_retries + 1) 0 none k g hg
      (by simpa using hex)
  · intro hall
    obtain ⟨e, he, hr⟩ := cloneLoop_exhaust cfg oc (cfg.max_retries + 1) 0 none
      (by omega) (by omega) (fun j _ hj => hall j hj)
    exact ⟨e, he, by rw [hres, hr]⟩
  · exact updateLoop_count cfg ou (cfg.max_retries + 1) 0 none
  · exact ⟨ku, by rw [husleep, hku, List.range_eq_range']⟩
  · rw [husleep, hku]; exact chain'_lt_pow2_range' ku 0
  · intro hall
    exact updateLoop_exhaust cfg ou (cfg.max_retries + 1) 0 none
      (by omega) (by omega) (fun j _ hj => hall j hj)

/-- Witness for C6: with `max_retries = 2` and every attempt failing
while leaving a partial directory, the clone trace shows exactly three
attempts, sleeps of `1` then `2` seconds, a cleanup inside each gap, and
the surfaced message carries the last error. -/
theorem retry_backoff_spec_witness :
    countCloneAttempts
        (clone_with_retry
          (Config.mk "/m".data CloneMethod.ssh [] false true true true 0 2 0
            false false false [] [] 4)
          (CloneOracle.mk (.ok ()) (fun i => .error (100 + i))
            (fun _ => true))).2 = 3 ∧
    sleepDelays
        (clone_with_retry
          (Config.mk "/m".data CloneMethod.ssh [] false true true true 0 2 0
            false false false [] [] 4)
          (CloneOracle.mk (.ok ()) (fun i => .error (100 + i))
            (fun _ => true))).2 = [1, 2] ∧
    (clone_with_retry
        (Config.mk "/m".data CloneMethod.ssh [] false true true true 0 2 0
          false false false [] [] 4)
        (CloneOracle.mk (.ok ()) (fun i => .error (100 + i))
          (fun _ => true))).1 =
      ⟨false, some (.exhausted 3 (some 102))⟩ := by
  have h := retry_backoff_spec
    (Config.mk "/m".data CloneMethod.ssh [] false true true true 0 2 0
      false false false [] [] 4)
    (CloneOracle.mk (.ok ()) (fun i => .error (100 + i)) (fun _ => true))
    (UpdateOracle.mk (RepoOracle.mk (.ok ()) .inf (.ok false) (.ok false)
      (.ok 0)) false (fun _ => .ok ()))
  obtain ⟨e, he, hr⟩ := h.2.2.2.2.1 (fun j _ => ⟨100 + j, rfl⟩)
  refine ⟨by decide, by decide, ?_⟩
  have he2 : e = 102 := by
    dsimp only at he
    simp only [Except.error.injEq] at he
    omega
  rw [hr, he2]

/-! ## Normalization lemmas (claim C8) -/

theorem afterCredCont_no_at {l : Str} (h : '@' ∉ l) :
    afterCredCont l = none := by
  induction l with
  | nil => rfl
  | cons c rest ih =>
    have hc : c ≠ '@' := fun hc => h (hc ▸ List.mem_cons_self c rest)
    rw [show afterCredCont (c :: rest) = afterCredCont rest by
      cases c; simp_all [afterCredCont]]
    exact ih (fun hm => h (List.mem_cons_of_mem c hm))

theorem afterCred_no_at {l : Str} (h : '@' ∉ l) : afterCred l = none := by
  cases l with
  | nil => rfl
  | cons c rest =>
    have hc : c ≠ '@' := fun hc => h (hc ▸ List.mem_cons_self c rest)
    rw [show afterCred (c :: rest) = afterCredCont rest by
      cases c; simp_all [afterCred]]
    exact afterCredCont_no_at (fun hm => h (List.mem_cons_of_mem c hm))

theorem afterCredCont_hit {cs : Str} (suf : Str) (h : '@' ∉ cs) :
    afterCredCont (cs ++ '@' :: suf) = some suf := by
  induction cs with
  | nil => rfl
  | cons c rest ih =>
    have hc : c ≠ '@' := fun hc => h (hc ▸ List.mem_cons_self c rest)
    rw [List.cons_append,
      show afterCredCont (c :: (rest ++ '@' :: suf))
          = afterCredCont (rest ++ '@' :: suf) by
        cases c; simp_all [afterCredCont]]
    exact ih (fun hm => h (List.mem_cons_of_mem c hm))

theorem afterCred_hit {cred : Str} (suf : Str) (hne : cred ≠ [])
    (h : '@' ∉ cred) : afterCred (cred ++ '@' :: suf) = some suf := by
  cases cred with
  | nil => exact absurd rfl hne
  | cons c rest =>
    have hc : c ≠ '@' := fun hc => h (hc ▸ List.mem_cons_self c rest)
    rw [List.cons_append,
      show afterCred (c :: (rest ++ '@' :: suf))
          = afterCredCont (rest ++ '@' :: suf) by
        cases c; simp_all [afterCred]]
    exact afterCredCont_hit suf (fun hm => h (List.mem_cons_of_mem c hm))

theorem stripCredFuel_no_at : ∀ (fuel : Nat) {l : Str}, '@' ∉ l →
    stripCredFuel fuel l = l := by
  intro fuel
  induction fuel with
  | zero => intro l _; rfl
  | succ fuel ih =>
    intro l h
    cases l with
    | nil => rfl
    | cons c rest =>
      rw [stripCredFuel]
      by_cases hc : c = ':' ∧ rest.take 2 = ['/', '/']
      · rw [if_pos hc,
          afterCred_no_at (fun hm => h (List.mem_cons_of_mem c
            (List.mem_of_mem_drop hm))),
          ih (fun hm => h (List.mem_cons_of_mem c hm))]
      · rw [if_neg hc, ih (fun hm => h (List.mem_cons_of_mem c hm))]

theorem stripCredFuel_master :
    ∀ (pre : Str) (fuel : Nat) (cred suf : Str),
      (∀ c ∈ pre, c ≠ ':') → pre.length < fuel → cred ≠ [] →
      '@' ∉ cred → '@' ∉ suf →
      stripCredFuel fuel (pre ++ ':' :: '/' :: '/' :: (cred ++ '@' :: suf))
        = pre ++ ':' :: '/' :: '/' :: suf := by
  intro pre
  induction pre with
  | nil =>
    intro fuel cred suf hx hfuel hne hcred hsuf
    cases fuel with
    | zero => omega
    | succ fuel =>
      rw [List.nil_append, List.nil_append, stripCredFuel,
        if_pos ⟨rfl, by simp⟩]
      rw [show (('/' :: '/' :: (cred ++ '@' :: suf)).drop 2) = cred ++ '@' :: suf
        from rfl, afterCred_hit suf hne hcred]
      dsimp only
      rw [stripCredFuel_no_at fuel hsuf]
  | cons c pre ih =>
    intro fuel cred suf hpre hfuel hne hcred hsuf
    cases fuel with
    | zero => omega
    | succ fuel =>
      have hc : c ≠ ':' := hpre c (List.mem_cons_self c pre)
      rw [List.cons_append, stripCredFuel, if_neg (fun hand => hc hand.1),
        ih fuel cred suf (fun a ha => hpre a (List.mem_cons_of_mem c ha))
          (by simpa using Nat.lt_of_succ_lt_succ hfuel) hne hcred hsuf,
        List.cons_append]

theorem stripCred_no_at {l : Str} (h : '@' ∉ l) : stripCred l = l :=
  stripCredFuel_no_at l.length h

theorem rstripSlash_snoc {l : Str} {c : Char} (h : c ≠ '/') :
    rstripSlash (l ++ [c]) = l ++ [c] := by
  rw [rstripSlash, List.reverse_append]
  simp only [List.reverse_cons, List.reverse_nil, List.nil_append,
    List.singleton_append, List.dropWhile_cons]
  rw [if_neg (by simpa using h)]
  simp

theorem dropGitSuffix_snoc_git (l : Str) :
    dropGitSuffix (l ++ ['.', 'g', 'i', 't']) = l := by
  rw [dropGitSuffix,
    if_pos (List.isSuffixOf_iff_suffix.mpr ⟨l, rfl⟩)]
  simp [List.take_left]

theorem dropGitSuffix_of_not_suffix {l : Str}
    (h : ¬ (['.', 'g', 'i', 't'] <:+ l)) : dropGitSuffix l = l := by
  rw [dropGitSuffix, if_neg (fun hb => h (List.isSuffixOf_iff_suffix.mp hb))]

theorem not_git_suffix_append (A p : Str)
    (hp : ¬ (['.', 'g', 'i', 't'] <:+ p)) :
    ¬ (['.', 'g', 'i', 't'] <:+ A ++ '/' :: p) := by
  intro hs
  rw [← List.reverse_prefix,
    show (['.', 'g', 'i', 't'] : Str).reverse = ['t', 'i', 'g', '.'] from rfl,
    show (A ++ '/' :: p).reverse = p.reverse ++ '/' :: A.reverse by simp] at hs
  rcases hrev : p.reverse with _ | ⟨a, _ | ⟨b, _ | ⟨c, _ | ⟨d, t⟩⟩⟩⟩ <;>
    rw [hrev] at hs
  · simp only [List.nil_append, List.cons_prefix_cons] at hs
    exact absurd hs.1 (by decide)
  · simp only [List.cons_append, List.nil_append,
      List.cons_prefix_cons] at hs
    exact absurd hs.2.1 (by decide)
  · simp only [List.cons_append, List.nil_append,
      List.cons_prefix_cons] at hs
    exact absurd hs.2.2.1 (by decide)
  · simp only [List.cons_append, List.nil_append,
      List.cons_prefix_cons] at hs
    exact absurd hs.2.2.2.1 (by decide)
  · simp only [List.cons_append, List.cons_prefix_cons] at hs
    obtain ⟨h1, h2, h3, h4, -⟩ := hs
    apply hp
    rw [← List.reverse_prefix,
      show (['.', 'g', 'i', 't'] : Str).reverse = ['t', 'i', 'g', '.'] from rfl,
      hrev, ← h1, ← h2, ← h3, ← h4]
    exact ⟨t, rfl⟩

/-- C8: URL normalization strips embedded `user:pass@` credentials,
the trailing slashes, one trailing `.git`, and lower-cases, so a
token-embedded HTTP clone URL normalizes identically to the plain URL
of the same project: for every token `T`, host `h` and namespace
segments `g`, `p` (no `@` anywhere, `p` a nonempty final segment that
is not slash-terminated and does not itself end in `.git`),
`normalize("https://oauth2:T@h/g/p.git") = normalize("https://h/g/p")`;
in particular the spec's literal instance holds. -/
theorem normalize_url_strips_credentials :
    (∀ (T h g p : Str),
      '@' ∉ T → '@' ∉ h → '@' ∉ g → '@' ∉ p → '/' ∉ p → p ≠ [] →
      ¬ (['.', 'g', 'i', 't'] <:+ p) →
      normalize_url ("https://oauth2:".data ++ T ++ "@".data ++ h
          ++ "/".data ++ g ++ "/".data ++ p ++ ".git".data)
        = normalize_url ("https://".data ++ h ++ "/".data ++ g
          ++ "/".data ++ p)) ∧
    normalize_url "https://oauth2:T@h/g/p.git".data
      = normalize_url "https://h/g/p".data := by
  constructor
  · intro T h g p hT hh hg hp hslash hne hgit
    show normalize_url (['h', 't', 't', 'p', 's', ':', '/', '/', 'o', 'a',
        'u', 't', 'h', '2', ':'] ++ T ++ ['@'] ++ h ++ ['/'] ++ g ++ ['/']
        ++ p ++ ['.', 'g', 'i', 't'])
      = normalize_url (['h', 't', 't', 'p', 's', ':', '/', '/'] ++ h ++ ['/']
        ++ g ++ ['/'] ++ p)
    have hlast : p.getLast hne ≠ '/' :=
      fun hl => hslash (hl ▸ List.getLast_mem hne)
    have hsplit : p.dropLast ++ [p.getLast hne] = p :=
      List.dropLast_append_getLast hne
    -- the left URL in credential-match shape
    have hLin : ['h', 't', 't', 'p', 's', ':', '/', '/', 'o', 'a', 'u', 't',
        'h', '2', ':'] ++ T ++ ['@'] ++ h ++ ['/'] ++ g ++ ['/'] ++ p
        ++ ['.', 'g', 'i', 't']
        = ['h', 't', 't', 'p', 's'] ++ ':' :: '/' :: '/' ::
            ((['o', 'a', 'u', 't', 'h', '2', ':'] ++ T) ++ '@' ::
              (h ++ '/' :: (g ++ '/' :: (p ++ ['.', 'g', 'i', 't'])))) := by
      simp [List.append_assoc]
    have hstripL : stripCred (['h', 't', 't', 'p', 's'] ++ ':' :: '/' :: '/' ::
        ((['o', 'a', 'u', 't', 'h', '2', ':'] ++ T) ++ '@' ::
          (h ++ '/' :: (g ++ '/' :: (p ++ ['.', 'g', 'i', 't'])))))
        = ['h', 't', 't', 'p', 's'] ++ ':' :: '/' :: '/' ::
            (h ++ '/' :: (g ++ '/' :: (p ++ ['.', 'g', 'i', 't']))) := by
      rw [stripCred]
      exact stripCredFuel_master ['h', 't', 't', 'p', 's'] _
        (['o', 'a', 'u', 't', 'h', '2', ':'] ++ T)
        (h ++ '/' :: (g ++ '/' :: (p ++ ['.', 'g', 'i', 't'])))
        (by decide)
        (by simp only [List.length_append, List.length_cons, List.length_nil]
            omega)
        (by simp)
        (by simp [List.mem_append, hT])
        (by simp [List.mem_append, hh, hg, hp])
    have hL : normalize_url (['h', 't', 't', 'p', 's', ':', '/', '/', 'o',
        'a', 'u', 't', 'h', '2', ':'] ++ T ++ ['@'] ++ h ++ ['/'] ++ g
        ++ ['/'] ++ p ++ ['.', 'g', 'i', 't'])
        = (('h' :: 't' :: 't' :: 'p' :: 's' :: ':' :: '/' :: '/' ::
            (h ++ '/' :: (g ++ '/' :: p)))).map Char.toLower := by
      rw [normalize_url, hLin, hstripL,
        show ['h', 't', 't', 'p', 's'] ++ ':' :: '/' :: '/' ::
            (h ++ '/' :: (g ++ '/' :: (p ++ ['.', 'g', 'i', 't'])))
          = ('h' :: 't' :: 't' :: 'p' :: 's' :: ':' :: '/' :: '/' ::
              (h ++ '/' :: (g ++ '/' :: p)) ++ ['.', 'g', 'i']) ++ ['t'] by
          simp,
        rstripSlash_snoc (by decide),
        show ('h' :: 't' :: 't' :: 'p' :: 's' :: ':' :: '/' :: '/' ::
            (h ++ '/' :: (g ++ '/' :: p)) ++ ['.', 'g', 'i']) ++ ['t']
          = ('h' :: 't' :: 't' :: 'p' :: 's' :: ':' :: '/' :: '/' ::
              (h ++ '/' :: (g ++ '/' :: p))) ++ ['.', 'g', 'i', 't'] by simp,
        dropGitSuffix_snoc_git]
    have hRin : ['h', 't', 't', 'p', 's', ':', '/', '/'] ++ h ++ ['/'] ++ g
        ++ ['/'] ++ p
        = 'h' :: 't' :: 't' :: 'p' :: 's' :: ':' :: '/' :: '/' ::
            (h ++ '/' :: (g ++ '/' :: p)) := by
      simp [List.append_assoc]
    have hstripR : stripCred ('h' :: 't' :: 't' :: 'p' :: 's' :: ':' :: '/'
        :: '/' :: (h ++ '/' :: (g ++ '/' :: p)))
        = 'h' :: 't' :: 't' :: 'p' :: 's' :: ':' :: '/' :: '/' ::
            (h ++ '/' :: (g ++ '/' :: p)) := by
      refine stripCred_no_at ?_
      simp [List.mem_append, hh, hg, hp]
    have hR : normalize_url (['h', 't', 't', 'p', 's', ':', '/', '/'] ++ h
        ++ ['/'] ++ g ++ ['/'] ++ p)
        = (('h' :: 't' :: 't' :: 'p' :: 's' :: ':' :: '/' :: '/' ::
            (h ++ '/' :: (g ++ '/' :: p)))).map Char.toLower := by
      rw [normalize_url, hRin, hstripR]
      have hsnoc : 'h' :: 't' :: 't' :: 'p' :: 's' :: ':' :: '/' :: '/' ::
          (h ++ '/' :: (g ++ '/' :: p))
          = 'h' :: 't' :: 't' :: 'p' :: 's' :: ':' :: '/' :: '/' ::
              (h ++ '/' :: (g ++ '/' :: p.dropLast)) ++ [p.getLast hne] := by
        conv_lhs => rw [← hsplit]
        simp
      rw [hsnoc, rstripSlash_snoc hlast, ← hsnoc]
      rw [show 'h' :: 't' :: 't' :: 'p' :: 's' :: ':' :: '/' :: '/' ::
            (h ++ '/' :: (g ++ '/' :: p))
          = ('h' :: 't' :: 't' :: 'p' :: 's' :: ':' :: '/' :: '/' ::
              (h ++ '/' :: g)) ++ '/' :: p by simp]
      rw [dropGitSuffix_of_not_suffix (not_git_suffix_append _ p hgit)]
    exact hL.trans hR.symm
  · decide

/-- Witness for C8: the general equivalence instantiated at the
concrete token `TOKEN`, host `gitlab.com` and path `group/project`. -/
theorem normalize_url_strips_credentials_witness :
    normalize_url ("https://oauth2:".data ++ "TOKEN".data ++ "@".data
        ++ "gitlab.com".data ++ "/".data ++ "group".data ++ "/".data
        ++ "project".data ++ ".git".data)
      = normalize_url ("https://".data ++ "gitlab.com".data ++ "/".data
        ++ "group".data ++ "/".data ++ "project".data) := by
  exact normalize_url_strips_credentials.1 "TOKEN".data "gitlab.com".data
    "group".data "project".data (by decide) (by decide) (by decide)
    (by decide) (by decide) (by decide) (by decide)

end GitlabMirror
